import Mathlib

/-
Verification development for the Information_Network repository (Python
prototype of a hierarchical request/publish hub).

The Python sources are shallowly embedded below:
  * `node_library.py`         — HubConnector (registry, publish, interceptors)
  * `shallow_hub_python.py`   — ShallowHub / ShallowHubClient (call_api, register)
  * `network_hub_python_client.py` — NetworkHubClient (wire framing, call_api)
  * `python-message-interception.py` — EnhancedThreadHub (method interception)

Python dicts are modelled as association lists in key-insertion order
(Python dicts preserve insertion order; assignment to an existing key keeps
its position).  Handlers and callbacks are modelled as Lean functions;
callbacks whose return value the source discards are recorded in an
invocation trace by a ghost registration index carried on each entry.
Wall-clock reads are passed in explicitly.  Fallible operations return
`Option` or `Except`.
-/

namespace InfoNet

/-- ResponseStatus enum from node_library.py / shallow_hub_python.py. -/
inductive ResponseStatus where
  | SUCCESS
  | NOT_FOUND
  | ERROR
  | INTERCEPTED
  | APPROXIMATED
deriving DecidableEq, Repr

/-- Message dataclass (topic, data, metadata, sender_id, timestamp). -/
structure Message (T : Type) where
  topic : String
  data : T
  metadata : List (String × String)
  sender_id : String
  timestamp : Int
deriving Repr

/-- Model of `Message.__post_init__`: a zero timestamp is replaced by the
current wall-clock time in milliseconds (`int(time.time() * 1000)`), passed
in here as `now`; any other value is kept. -/
def postInitTimestamp (now ts : Int) : Int :=
  if ts = 0 then now else ts

/-- Construction of a Message through the dataclass constructor followed by
`__post_init__`.  In the Python source `timestamp` defaults to 0, so an
omitted timestamp is the same as passing 0. -/
def mkMessage {T : Type} (now : Int) (topic : String) (data : T)
    (metadata : List (String × String)) (sender_id : String) (ts : Int) :
    Message T :=
  { topic := topic, data := data, metadata := metadata,
    sender_id := sender_id, timestamp := postInitTimestamp now ts }

/-- ApiRequest dataclass. -/
structure ApiRequest (D : Type) where
  path : String
  data : D
  metadata : List (String × String)
  sender_id : String
deriving Repr

/-- ApiResponse dataclass; `data` is `Option` because Python uses None. -/
structure ApiResponse (D : Type) where
  data : Option D
  metadata : List (String × String)
  status : ResponseStatus
deriving Repr

/-! ## Python dict model (association lists in insertion order) -/

/-- Lookup in a Python dict: first (unique) binding of the key. -/
def dictGet {κ β : Type} [DecidableEq κ] : List (κ × β) → κ → Option β
  | [], _ => none
  | (k, v) :: rest, k0 => if k = k0 then some v else dictGet rest k0

/-- Assignment `d[k] = v` in a Python dict: replace the value in place if
the key is present (keeping its position), otherwise append the binding. -/
def dictSet {κ β : Type} [DecidableEq κ] : List (κ × β) → κ → β → List (κ × β)
  | [], k0, v0 => [(k0, v0)]
  | (k, v) :: rest, k0, v0 =>
      if k = k0 then (k, v0) :: rest else (k, v) :: dictSet rest k0 v0

/-! ## Pattern matching (`_pattern_matches` in node_library.py and
shallow_hub_python.py) -/

/-- Core of `_pattern_matches` on character lists: exact equality, or the
pattern ends with a star and the topic starts with the pattern minus the
star (`pattern.endswith('*') and topic.startswith(pattern[:-1])`). -/
def patternMatchesL (pattern topic : List Char) : Bool :=
  if pattern = topic then true
  else if pattern.getLast? = some '*' then pattern.dropLast.isPrefixOf topic
  else false

/-- Model of `_pattern_matches(pattern, topic)` on strings. -/
def patternMatches (pattern topic : String) : Bool :=
  patternMatchesL pattern.data topic.data

/-! ## Registry and request handling (HubConnector in node_library.py) -/

/-- The dict `{'handler': ..., 'metadata': ...}` stored per path by
`HubConnector.register_api`. -/
structure RegEntry (D : Type) where
  handler : ApiRequest D → ApiResponse D
  metadata : List (String × String)

/-- Model of `HubConnector.register_api`: unconditional dict assignment
`self._local_registry[path] = {'handler': handler, 'metadata': metadata}`. -/
def registerApi {D : Type} (reg : List (String × RegEntry D)) (path : String)
    (handler : ApiRequest D → ApiResponse D)
    (metadata : List (String × String)) : List (String × RegEntry D) :=
  dictSet reg path ⟨handler, metadata⟩

/-- The fallback scan in `HubConnector.handle_request`: walk the registry in
dict order and return the `fallback` metadata value of the first entry whose
`fallback` metadata equals the requested path.  (Note the source then uses
this value — which the guard forces to equal `request.path` — as the new
request path.) -/
def findFallbackPath {D : Type} :
    List (String × RegEntry D) → String → Option String
  | [], _ => none
  | (_, e) :: rest, p =>
      match dictGet e.metadata "fallback" with
      | some fb => if fb = p then some fb else findFallbackPath rest p
      | none => findFallbackPath rest p

/-- Model of `HubConnector.handle_request`, with an explicit recursion budget: the
source recurses without any depth bound, so `fuel` counts recursive calls
and a result of `none` means the budget was exhausted — a run of the source
that has not produced a response after that many self-calls.  A theorem
showing the result is `none` for every budget shows the source never
returns.  Step order is the source order: exact registry lookup, then the
fallback scan (building the rewritten request with
`{**request.metadata, 'original_path': request.path}` and
`path = entry['metadata']['fallback']`), else NotFound. -/
def handleRequest {D : Type} (reg : List (String × RegEntry D)) :
    Nat → ApiRequest D → Option (ApiResponse D)
  | 0, _ => none
  | fuel + 1, req =>
      match dictGet reg req.path with
      | some api => some (api.handler req)
      | none =>
          match findFallbackPath reg req.path with
          | some fb =>
              handleRequest reg fuel
                { path := fb, data := req.data,
                  metadata := dictSet req.metadata "original_path" req.path,
                  sender_id := req.sender_id }
          | none =>
              some { data := none, metadata := [],
                     status := ResponseStatus.NOT_FOUND }

/-- Registry holding only `/api/v2/users`, registered with a fallback
pointing at the unregistered `/api/v1/users` (exactly what
`register_with_fallback` sets up for the primary path). -/
def regV2 : List (String × RegEntry Unit) :=
  registerApi [] "/api/v2/users"
    (fun req => { data := some req.data, metadata := [],
                  status := ResponseStatus.SUCCESS })
    [("fallback", "/api/v1/users")]

/-- A request for the unregistered fallback path. -/
def reqV1 : ApiRequest Unit :=
  { path := "/api/v1/users", data := (), metadata := [], sender_id := "node-1" }

/-- The fixed point the rewritten request reaches after one hop: the path is
unchanged and `original_path` is set to the same path. -/
def reqV1Fix : ApiRequest Unit :=
  { path := "/api/v1/users", data := (),
    metadata := [("original_path", "/api/v1/users")], sender_id := "node-1" }

/-- Registry for the C3 termination counterexample: `/a` registered with a
fallback naming the unregistered path `/b`. -/
def regA : List (String × RegEntry Unit) :=
  registerApi [] "/a"
    (fun _ => { data := none, metadata := [],
                status := ResponseStatus.SUCCESS })
    [("fallback", "/b")]

/-- A request for `/b`, which is unregistered but named as `/a`'s fallback. -/
def reqB : ApiRequest Unit :=
  { path := "/b", data := (), metadata := [], sender_id := "n" }

/-- The fixed point of the C3 rewrite loop. -/
def reqBFix : ApiRequest Unit :=
  { path := "/b", data := (), metadata := [("original_path", "/b")],
    sender_id := "n" }

/-! ## Duplicate registration (C5) -/

/-- The `{"path", "metadata", "client_id"}` payload a client sends with
TYPE_REGISTER_API, which the ShallowHub stores in its api_registry. -/
structure ApiData where
  path : String
  metadata : List (String × String)
  client_id : String
deriving DecidableEq, Repr

/-- ShallowHub._process_hub_message, TYPE_REGISTER_API branch: store the
payload under its path — `self.api_registry[api_data["path"]] = api_data` —
and acknowledge `{"success": True}` unconditionally. -/
def shallowRegisterApi (registry : List (String × ApiData)) (apiData : ApiData) :
    List (String × ApiData) × Bool :=
  (dictSet registry apiData.path apiData, true)

/-- First registration of `/p`. -/
def apiDataOne : ApiData := { path := "/p", metadata := [("v", "1")], client_id := "c1" }

/-- Second, conflicting registration of `/p`. -/
def apiDataTwo : ApiData := { path := "/p", metadata := [("v", "2")], client_id := "c2" }

/-! ## Priority tables (subscriptions, message and method interceptors)

The source registers subscriptions / interceptors by get-or-create on a
dict keyed by pattern (or by (class, method)), appending the new entry and
re-running Python's stable sort descending by priority.  `id` is the ghost
registration index used to state stability and to record invocations in
traces; the source keys identity by the stored dict/object instead. -/

/-- One table entry: priority plus payload (handler or callback). -/
structure PEntry (α : Type) where
  id : Nat
  priority : Int
  payload : α

/-- Stable insertion: the new entry goes after every entry of priority ≥ its
own and before the first entry of strictly smaller priority. -/
def insertByPriority {α : Type} (x : PEntry α) :
    List (PEntry α) → List (PEntry α)
  | [] => [x]
  | y :: ys =>
      if x.priority ≤ y.priority then y :: insertByPriority x ys
      else x :: y :: ys

/-- Python's `sort(key=lambda e: e['priority'], reverse=True)` (equivalently
`sort(key=lambda x: -x['priority'])`): a stable descending sort, modelled by
left-to-right stable insertion. -/
def pySortDesc {α : Type} (l : List (PEntry α)) : List (PEntry α) :=
  l.foldl (fun acc x => insertByPriority x acc) []

/-- The registration step shared by `subscribe`, `register_interceptor` and
`register_method_interceptor`: get-or-create the key's list, append the new
entry, re-sort stably by descending priority, store back. -/
def addEntry {κ α : Type} [DecidableEq κ] (t : List (κ × List (PEntry α)))
    (k : κ) (e : PEntry α) : List (κ × List (PEntry α)) :=
  dictSet t k (pySortDesc (((dictGet t k).getD []) ++ [e]))

/-- One registration request: the key (pattern or (class, method)), the
priority, and the payload (callback or handler). -/
structure RegOp (κ α : Type) where
  key : κ
  priority : Int
  payload : α

/-- Apply a sequence of registrations to a table, numbering the entries by
registration order starting at `n`. -/
def applyOps {κ α : Type} [DecidableEq κ] :
    List (κ × List (PEntry α)) → Nat → List (RegOp κ α) →
      List (κ × List (PEntry α))
  | t, _, [] => t
  | t, n, op :: ops =>
      applyOps (addEntry t op.key ⟨n, op.priority, op.payload⟩) (n + 1) ops

/-- Strictly-descending priority with registration order on ties. -/
def entryBefore {α : Type} (a b : PEntry α) : Prop :=
  b.priority < a.priority ∨ (a.priority = b.priority ∧ a.id < b.id)

/-- A list is stably ordered when every earlier entry has strictly higher
priority or equal priority and an earlier registration index. -/
def stableOrd {α : Type} (l : List (PEntry α)) : Prop :=
  l.Pairwise entryBefore

/-- Equal-priority pairs appear in registration order. -/
def tiesInRegOrder {α : Type} (a b : PEntry α) : Prop :=
  a.priority = b.priority → a.id < b.id

/-- Invariant carried through a registration sequence: every key's list is
stably ordered and all registration indices are below the counter. -/
def tableOk {κ α : Type} [DecidableEq κ] (t : List (κ × List (PEntry α)))
    (n : Nat) : Prop :=
  ∀ k, stableOrd ((dictGet t k).getD [])
    ∧ ∀ e ∈ (dictGet t k).getD [], e.id < n

/-! ## Publish (HubConnector.publish in node_library.py) -/

/-- HubConnector local state: registry, subscription table (callbacks whose
return value the source discards) and interceptor table (handlers returning
Option results), each a dict in insertion order. -/
structure HubConnector (D T V : Type) where
  local_registry : List (String × RegEntry D)
  local_subscriptions : List (String × List (PEntry (Message T → Unit)))
  local_interceptors : List (String × List (PEntry (Message T → Option V)))

/-- The inner interceptor loop of `publish`: call each handler of one
pattern's list in order, stopping at (and returning) the first non-null
result; the second component records the ids of the handlers invoked. -/
def runInterceptors {T V : Type} :
    List (PEntry (Message T → Option V)) → Message T → Option V × List Nat
  | [], _ => (none, [])
  | e :: rest, m =>
      match e.payload m with
      | some v => (some v, [e.id])
      | none =>
          let r := runInterceptors rest m
          (r.1, e.id :: r.2)

/-- The outer interceptor loop of `publish`: walk the interceptor dict in
key-insertion order; for each pattern that matches the topic run its list;
the first non-null result short-circuits the whole walk. -/
def publishInterceptPhase {T V : Type} :
    List (String × List (PEntry (Message T → Option V))) → Message T →
      Option V × List Nat
  | [], _ => (none, [])
  | (pat, l) :: rest, m =>
      if patternMatches pat m.topic then
        match runInterceptors l m with
        | (some v, tr) => (some v, tr)
        | (none, tr) =>
            let r := publishInterceptPhase rest m
            (r.1, tr ++ r.2)
      else publishInterceptPhase rest m

/-- The subscriber fan-out of `publish`: invoke (record) every subscriber of
every matching pattern, in table order then list order; return values are
discarded by the source, so only the invocation ids are kept. -/
def notifySubscribers {T : Type} :
    List (String × List (PEntry (Message T → Unit))) → Message T → List Nat
  | [], _ => []
  | (pat, l) :: rest, m =>
      if patternMatches pat m.topic then
        l.map (fun e => e.id) ++ notifySubscribers rest m
      else notifySubscribers rest m

/-- Observable outcome of one `publish`: the returned value together with
the interceptor invocations and the subscriber invocations, in order. -/
structure PublishResult (V : Type) where
  result : Option V
  interceptTrace : List Nat
  subscriberTrace : List Nat
deriving DecidableEq, Repr

/-- Model of `HubConnector.publish`: run the interceptor phase; a non-null result is
returned at once and no subscriber is notified; otherwise notify every
matching subscriber and return None. -/
def publish {D T V : Type} (hub : HubConnector D T V) (m : Message T) :
    PublishResult V :=
  match publishInterceptPhase hub.local_interceptors m with
  | (some v, tr) => ⟨some v, tr, []⟩
  | (none, tr) => ⟨none, tr, notifySubscribers hub.local_subscriptions m⟩

/-- Specification-side flattening: the entries of every pattern whose
pattern matches the topic, in table order then list order. -/
def matchingEntries {α : Type} :
    List (String × List (PEntry α)) → String → List (PEntry α)
  | [], _ => []
  | (pat, l) :: rest, topic =>
      if patternMatches pat topic then l ++ matchingEntries rest topic
      else matchingEntries rest topic

/-- The prefix of an interceptor list that a dispatch actually consults:
everything up to and including the first handler returning non-null. -/
def takeUntilHit {T V : Type} (m : Message T) :
    List (PEntry (Message T → Option V)) → List (PEntry (Message T → Option V))
  | [] => []
  | e :: rest =>
      match e.payload m with
      | some _ => [e]
      | none => e :: takeUntilHit m rest

/-- All registration ids stored in a table, in table order. -/
def allIds {α : Type} : List (String × List (PEntry α)) → List Nat
  | [] => []
  | (_, l) :: rest => l.map (fun e => e.id) ++ allIds rest

/-- Interceptor registrations for the C1 counterexample: first a priority-0
interceptor on the exact pattern `t` returning 1, then a priority-10
interceptor on the wildcard pattern `*` returning 2.  Both patterns match
topic `t`. -/
def interceptOpsC1 : List (RegOp String (Message Unit → Option Nat)) :=
  [⟨"t", 0, fun _ => some 1⟩, ⟨"*", 10, fun _ => some 2⟩]

/-- Hub with the two C1 interceptors and no subscribers. -/
def hubC1 : HubConnector Unit Unit Nat :=
  ⟨[], [], applyOps [] 0 interceptOpsC1⟩

/-- A published message of topic `t`. -/
def msgC1 : Message Unit := ⟨"t", (), [], "pub", 1⟩

/-- The one subscriber callback of the C1 witness hub. -/
def subCbW : Message Unit → Unit := fun _ => ()

/-- Subscription registrations of the C1 witness hub. -/
def subOpsW : List (RegOp String (Message Unit → Unit)) := [⟨"a*", 0, subCbW⟩]

/-- Witness hub: one subscriber on `a*`, no interceptors. -/
def hubW : HubConnector Unit Unit Nat := ⟨[], applyOps [] 0 subOpsW, []⟩

/-- A published message of topic `ab`, matching the `a*` subscription. -/
def msgW : Message Unit := ⟨"ab", (), [], "pub", 1⟩

/-! ## Method interception (EnhancedThreadHub in
python-message-interception.py)

Classes are identified by a numeric token; a call site supplies the
instance's method-resolution order `[cls] ++ cls.parents`, most specific
first, exactly the `cls` then `cls.__mro__[1:]` walk of the source.  The
method-interceptor table is a dict keyed by (class token, method name);
`A` is the invocation-context type and `R` the interception result type. -/

/-- Model of `EnhancedThreadHub.try_intercept_method` (with no parent hub, as in the
source's default singleton): walk the type hierarchy most specific first;
within each class try its priority-ordered interceptors in stored order;
the first non-null result wins. -/
def tryInterceptMethod {R A : Type}
    (tbl : List ((Nat × String) × List (PEntry (A → Option R)))) :
    List Nat → String → A → Option R
  | [], _, _ => none
  | c :: rest, mname, ctx =>
      match dictGet tbl (c, mname) with
      | some entries =>
          match entries.findSome? (fun e => e.payload ctx) with
          | some r => some r
          | none => tryInterceptMethod tbl rest mname ctx
      | none => tryInterceptMethod tbl rest mname ctx

/-- Specification-side flattening of the hierarchy walk: the interceptor
entries of every class along the method-resolution order, most specific
class first, each class's list in its stored order. -/
def mroEntries {R A : Type}
    (tbl : List ((Nat × String) × List (PEntry (A → Option R)))) :
    List Nat → String → List (PEntry (A → Option R))
  | [], _ => []
  | c :: rest, mname =>
      ((dictGet tbl (c, mname)).getD []) ++ mroEntries tbl rest mname

/-- The witness interceptor handler, registered on the base class. -/
def mHandlerW : Nat → Option Nat := fun n => some (n + 4)

/-- Witness registrations: one interceptor on (class 0, method `search`). -/
def mOpsW : List (RegOp (Nat × String) (Nat → Option Nat)) :=
  [⟨(0, "search"), 0, mHandlerW⟩]

/-! ## call_api error surfacing (ShallowHubClient.call_api and
NetworkHubClient.call_api) -/

/-- The response dict a ShallowHubClient receives for a call: `data`,
`metadata` and `status` are read with `.get`, so each may be absent; a
present status is a string or an integer. -/
structure RespData (D : Type) where
  data : Option D
  metadata : Option (List (String × String))
  status : Option (Sum String Int)

/-- Model of `ResponseStatus(status_value)` on a string: the enum lookup, None for a
value that raises ValueError. -/
def responseStatusOfString : String → Option ResponseStatus
  | "success" => some ResponseStatus.SUCCESS
  | "not_found" => some ResponseStatus.NOT_FOUND
  | "error" => some ResponseStatus.ERROR
  | "intercepted" => some ResponseStatus.INTERCEPTED
  | "approximated" => some ResponseStatus.APPROXIMATED
  | _ => none

/-- The message of the ValueError raised by the enum lookup
`ResponseStatus(status_value)` for an invalid string (the quoting of the
offending value in the Python message is elided here). -/
def invalidStatusMsg (s : String) : String :=
  s ++ " is not a valid ResponseStatus"

/-- The integer status map of ShallowHubClient.call_api (and of
NetworkHubClient.call_api), defaulting to ERROR. -/
def intStatusMap (n : Int) : ResponseStatus :=
  if n = 0 then ResponseStatus.SUCCESS
  else if n = 1 then ResponseStatus.NOT_FOUND
  else if n = 2 then ResponseStatus.ERROR
  else if n = 3 then ResponseStatus.INTERCEPTED
  else if n = 4 then ResponseStatus.APPROXIMATED
  else ResponseStatus.ERROR

/-- Model of `ShallowHubClient.call_api`: the transport outcome is either the
response dict or the exception message raised while sending / waiting
(timeout, not-connected, ...).  Every failure inside the `try` — including
an invalid status string — is caught and turned into an ERROR response with
the message under the `error` metadata key; nothing escapes. -/
def shallowCallApi {D : Type} (outcome : Except String (RespData D)) :
    ApiResponse D :=
  match outcome with
  | Except.error e =>
      { data := none, metadata := [("error", e)], status := ResponseStatus.ERROR }
  | Except.ok rd =>
      match rd.status.getD (Sum.inl "error") with
      | Sum.inl s =>
          match responseStatusOfString s with
          | some st =>
              { data := rd.data, metadata := rd.metadata.getD [], status := st }
          | none =>
              { data := none, metadata := [("error", invalidStatusMsg s)],
                status := ResponseStatus.ERROR }
      | Sum.inr n =>
          { data := rd.data, metadata := rd.metadata.getD [],
            status := intStatusMap n }

/-- The response dict of the network client: `status` is an integer read
with `.get('status', 0)`. -/
structure NetRespData (D : Type) where
  data : Option D
  metadata : Option (List (String × String))
  status : Option Int

/-- The message of the ValueError raised for an unexpected frame type. -/
def unexpectedTypeMsg (mt : Nat) : String :=
  "Unexpected response type: " ++ toString mt

/-- Model of `NetworkHubClient.call_api`: the transport outcome is either the
(frame type, response dict) pair or the exception message; a non-response
frame type raises inside the `try` and is likewise returned as an ERROR
response. -/
def networkCallApi {D : Type}
    (outcome : Except String (Nat × NetRespData D)) : ApiResponse D :=
  match outcome with
  | Except.error e =>
      { data := none, metadata := [("error", e)], status := ResponseStatus.ERROR }
  | Except.ok (mt, rd) =>
      if mt ≠ 2 then
        { data := none, metadata := [("error", unexpectedTypeMsg mt)],
          status := ResponseStatus.ERROR }
      else
        { data := rd.data, metadata := rd.metadata.getD [],
          status := intStatusMap (rd.status.getD 0) }

/-! ## Wire framing (NetworkHubClient._send_request) -/

/-- The bytes `_send_request` writes:
`bytes([message_type]) + json.dumps(data).encode('utf-8')` — a one-byte type
tag followed immediately by the serialized payload, with no length field. -/
def sendFrameBytes (messageType : Nat) (payload : List Nat) : List Nat :=
  messageType :: payload

/-- Big-endian 32-bit encoding of a length. -/
def be32 (n : Nat) : List Nat :=
  [n / 2 ^ 24 % 256, n / 2 ^ 16 % 256, n / 2 ^ 8 % 256, n % 256]

/-- The frame layout the claim describes: tag byte, four-byte big-endian
length, then exactly that many payload bytes. -/
def claimedFrame (tag : Nat) (payload : List Nat) : List Nat :=
  tag :: (be32 payload.length ++ payload)

/-- Reading one reply in `_send_request`: one byte of type tag, then the
rest of the stream as the payload (the source accumulates chunks until a
zero sentinel or the peer closes; a JSON payload never ends in a zero byte,
and the source assumes one message per connection, so the payload is
everything up to end of stream). -/
def recvFrame (stream : List Nat) : Option (Nat × List Nat) :=
  match stream with
  | [] => none
  | t :: rest => some (t, rest)

/-! ## Message timestamps (Message.__post_init__) -/

/-! ## ShallowHub publish path (ShallowHub._process_hub_message,
TYPE_PUBLISH branch, and the client delivery in
ShallowHubClient._process_client_message)

Hub-side interceptor and subscription records are the stored dicts
{pattern, client_id, interceptor_id / subscription_id, priority}; they are
modelled as `PEntry String` — the payload is the client_id the hub forwards
to, the ghost index standing for the stored identifier string.  The hub
never calls handlers itself: it only sends messages to clients. -/

/-- Outcome of the TYPE_PUBLISH branch: either the branch raises
AttributeError — the publish is dropped wholesale, nothing is sent to any
subscriber and no acknowledgment reaches the publisher (the hub loop merely
logs the exception) — or the message is forwarded once per matching
subscription entry (in table order, `sends` listing the receiving client of
each copy) followed by a success acknowledgment to the publisher. -/
inductive ShallowPublishOutcome where
  | attributeError
  | delivered (sends : List String)
deriving DecidableEq, Repr

/-- Condition under which the TYPE_PUBLISH branch reaches the intercept
forwarding code: some pattern of the interceptor table matches the topic
and has a nonempty interceptor list (a matching pattern with an empty list
leaves `intercepted` False and the outer loop continues). -/
def shallowHasInterceptor (itbl : List (String × List (PEntry String)))
    (topic : String) : Bool :=
  itbl.any (fun kv => patternMatches kv.1 topic && !kv.2.isEmpty)

/-- The subscriber fan-out loop of the TYPE_PUBLISH branch: one forwarded
message per subscription entry of every matching pattern, in table order. -/
def shallowFanout : List (String × List (PEntry String)) → String → List String
  | [], _ => []
  | (pat, subs) :: rest, topic =>
      if patternMatches pat topic then
        subs.map (fun s => s.payload) ++ shallowFanout rest topic
      else shallowFanout rest topic

/-- Model of ShallowHub._process_hub_message on TYPE_PUBLISH: as soon as a
matching pattern with a nonempty interceptor list is found, the branch
evaluates `HubMessage.TYPE_INTERCEPT` — an attribute that does not exist on
HubMessage — so it raises AttributeError before sending anything, whatever
any interceptor would have returned.  Only when no interceptor matches does
the fan-out run and the publisher get an acknowledgment. -/
def shallowPublish (itbl stbl : List (String × List (PEntry String)))
    (topic : String) : ShallowPublishOutcome :=
  if shallowHasInterceptor itbl topic then ShallowPublishOutcome.attributeError
  else ShallowPublishOutcome.delivered (shallowFanout stbl topic)

/-- Model of the TYPE_PUBLISH handler of
ShallowHubClient._process_client_message, for one received message: for
every locally registered pattern matching the topic, call all of that
pattern's handlers, re-sorted descending by priority (`sorted(handlers,
key=priority, reverse=True)`).  This runs once per copy the hub forwarded,
so a client holding several matching subscriptions repeats it per copy. -/
def clientDeliverPublish {T : Type} :
    List (String × List (PEntry (Message T → Unit))) → Message T → List Nat
  | [], _ => []
  | (pat, l) :: rest, m =>
      if patternMatches pat m.topic then
        (pySortDesc l).map (fun e => e.id) ++ clientDeliverPublish rest m
      else clientDeliverPublish rest m

/-! ## Node-local method interception (node_library.py)

`Node.register_method_interceptor` keeps a nested dict
class → method name → priority-ordered entries, and
`Node._try_intercept_method_locally` consults it by the instance's exact
class only — there is no `__mro__` walk in node_library.py, and the
hub-connector fallback `HubConnector.try_intercept_method` returns None. -/

/-- Model of `Node.register_method_interceptor`: get-or-create both dict
levels, append the entry, re-sort stably by descending priority. -/
def registerMethodInterceptorLocal {R A : Type}
    (tbl : List (Nat × List (String × List (PEntry (A → Option R)))))
    (cls : Nat) (mname : String) (e : PEntry (A → Option R)) :
    List (Nat × List (String × List (PEntry (A → Option R)))) :=
  dictSet tbl cls (addEntry ((dictGet tbl cls).getD []) mname e)

/-- Model of `Node._try_intercept_method_locally` (node_library.py lines
227-238): look up `instance.__class__` only — no hierarchy walk — and
return the first non-null handler result of that exact class's list. -/
def tryInterceptMethodLocally {R A : Type}
    (tbl : List (Nat × List (String × List (PEntry (A → Option R)))))
    (cls : Nat) (mname : String) (ctx : A) : Option R :=
  match dictGet tbl cls with
  | some methods =>
      match dictGet methods mname with
      | some entries => entries.findSome? (fun e => e.payload ctx)
      | none => none
  | none => none

/-- The entry list the node-local dispatcher reads for one (class, method)
pair. -/
def localEntriesAt {R A : Type}
    (tbl : List (Nat × List (String × List (PEntry (A → Option R)))))
    (cls : Nat) (mname : String) : List (PEntry (A → Option R)) :=
  (dictGet ((dictGet tbl cls).getD []) mname).getD []

/-- Apply a sequence of node-local method-interceptor registrations,
numbering entries by registration order starting at `n`. -/
def applyLocalOps {R A : Type} :
    List (Nat × List (String × List (PEntry (A → Option R)))) → Nat →
      List (RegOp (Nat × String) (A → Option R)) →
      List (Nat × List (String × List (PEntry (A → Option R))))
  | t, _, [] => t
  | t, n, op :: ops =>
      applyLocalOps
        (registerMethodInterceptorLocal t op.key.1 op.key.2
          ⟨n, op.priority, op.payload⟩) (n + 1) ops

/-- Node-local table with one interceptor registered on the base class 0
for method `search` (priority 10). -/
def mTblLocal : List (Nat × List (String × List (PEntry (Nat → Option Nat)))) :=
  registerMethodInterceptorLocal [] 0 "search" ⟨0, 10, mHandlerW⟩

/-! ## Theorems -/

theorem dictGet_dictSet_same {κ β : Type} [DecidableEq κ]
    (l : List (κ × β)) (k : κ) (v : β) : dictGet (dictSet l k v) k = some v := by
  induction l with
  | nil => simp [dictSet, dictGet]
  | cons hd tl ih =>
      obtain ⟨k1, v1⟩ := hd
      by_cases hk : k1 = k
      · simp [dictSet, dictGet, hk]
      · simp [dictSet, dictGet, hk, ih]

theorem dictGet_dictSet_other {κ β : Type} [DecidableEq κ]
    (l : List (κ × β)) (k k0 : κ) (v : β) (hne : k ≠ k0) :
    dictGet (dictSet l k v) k0 = dictGet l k0 := by
  induction l with
  | nil => simp [dictSet, dictGet, hne]
  | cons hd tl ih =>
      obtain ⟨k1, v1⟩ := hd
      by_cases hk : k1 = k
      · subst hk
        simp [dictSet, dictGet, hne]
      · simp [dictSet, dictGet, hk, ih]

theorem patternMatchesL_spec (p t : List Char) :
    patternMatchesL p t = true ↔
      p = t ∨ ∃ q, p = q ++ ['*'] ∧ q <+: t := by
  unfold patternMatchesL
  by_cases hpt : p = t
  · simp [hpt]
  · simp only [hpt, if_false, false_or]
    by_cases hstar : p.getLast? = some '*'
    · simp only [hstar, if_true]
      constructor
      · intro h
        refine ⟨p.dropLast, ?_, ?_⟩
        · exact (List.dropLast_append_getLast? _ (Option.mem_def.mpr hstar)).symm
        · exact ( List.isPrefixOf_iff_prefix).mp h
      · rintro ⟨q, hq, hpre⟩
        have hdrop : p.dropLast = q := by
          rw [hq]; simp
        rw [hdrop]
        exact ( List.isPrefixOf_iff_prefix).mpr hpre
    · rw [if_neg hstar]
      constructor
      · intro h
        exact absurd h (by decide)
      · rintro ⟨q, hq, -⟩
        exact absurd (by rw [hq]; simp) hstar

theorem patternMatches_spec (p t : String) :
    patternMatches p t = true ↔
      p = t ∨ ∃ q, p.data = q ++ ['*'] ∧ q <+: t.data := by
  unfold patternMatches
  rw [patternMatchesL_spec]
  constructor
  · rintro (h | h)
    · exact Or.inl (String.ext h)
    · exact Or.inr h
  · rintro (h | h)
    · exact Or.inl (congrArg String.data h)
    · exact Or.inr h

theorem handleRequest_regV2_fix (fuel : Nat) :
    handleRequest regV2 fuel reqV1Fix = none := by
  induction fuel with
  | zero => rfl
  | succ n ih =>
      have hstep : handleRequest regV2 (n + 1) reqV1Fix
          = handleRequest regV2 n reqV1Fix := rfl
      rw [hstep, ih]

/-- C2: the claim says that when a request's path is unregistered and the
request's original endpoint registration names a `fallback` path,
`handle_request` re-resolves a copy of the request at the fallback path and
returns that result.  The source instead scans for any entry whose
`fallback` metadata EQUALS the requested path and then rewrites the request
with `path = entry['metadata']['fallback']` — the very same path — and
recurses.  On the registry `{/api/v2/users ↦ fallback:/api/v1/users}` and a
request for `/api/v1/users`, the source therefore never returns: for every
recursion budget the run is still going (result `none`), rather than
re-resolving at a fallback path or answering NotFound. -/
theorem handleRequest_fallback_diverges (fuel : Nat) :
    handleRequest regV2 fuel reqV1 = none := by
  cases fuel with
  | zero => rfl
  | succ n =>
      have hstep : handleRequest regV2 (n + 1) reqV1
          = handleRequest regV2 n reqV1Fix := rfl
      rw [hstep]
      exact handleRequest_regV2_fix n

theorem handleRequest_regA_fix (fuel : Nat) :
    handleRequest regA fuel reqBFix = none := by
  induction fuel with
  | zero => rfl
  | succ n ih =>
      have hstep : handleRequest regA (n + 1) reqBFix
          = handleRequest regA n reqBFix := rfl
      rw [hstep, ih]

/-- C3: the claim says `handle_request` terminates for every request and
registry, following fallback chains only to `fallback_max_depth` (default 8)
and answering NotFound beyond it.  The source has no depth bound at all
(no `fallback_max_depth` exists anywhere in the code), and on the registry
`{/a ↦ fallback:/b}` with a request for `/b` the recursion never produces a
response no matter how large the recursion budget: with a depth bound of 8
the run would have answered NotFound within 9 steps. -/
theorem handleRequest_not_bounded_by_depth (fuel : Nat) :
    handleRequest regA fuel reqB = none := by
  cases fuel with
  | zero => rfl
  | succ n =>
      have hstep : handleRequest regA (n + 1) reqB
          = handleRequest regA n reqBFix := rfl
      rw [hstep]
      exact handleRequest_regA_fix n

/-- C5 counterexample: the claim says a second `register_api` on a path
already present fails with Conflict and leaves the entry unchanged.  In the
source a second registration of `/p` is acknowledged with success — there is
no Conflict status in the code at all — and the stored entry is replaced by
the new one. -/
theorem shallowRegisterApi_overwrites :
    (shallowRegisterApi (shallowRegisterApi [] apiDataOne).1 apiDataTwo).2 = true
    ∧ dictGet (shallowRegisterApi (shallowRegisterApi [] apiDataOne).1 apiDataTwo).1 "/p"
        = some apiDataTwo
    ∧ apiDataTwo ≠ apiDataOne := by
  refine ⟨rfl, ?_, by decide⟩
  rfl

/-- C5 amended: a repeated `register_api` at the same hub is acknowledged
with success and replaces the existing registry entry for that path
(last registration wins); entries at other paths are untouched.  The same
holds of `HubConnector.register_api`, which stores the new handler and
metadata under the path. -/
theorem registerApi_last_wins {D : Type} (registry : List (String × ApiData))
    (apiData : ApiData) (reg : List (String × RegEntry D)) (path other : String)
    (handler : ApiRequest D → ApiResponse D) (metadata : List (String × String))
    (hother : other ≠ apiData.path) :
    (shallowRegisterApi registry apiData).2 = true
    ∧ dictGet (shallowRegisterApi registry apiData).1 apiData.path = some apiData
    ∧ dictGet (shallowRegisterApi registry apiData).1 other = dictGet registry other
    ∧ (registerApi reg path handler metadata |> dictGet) path
        = some ⟨handler, metadata⟩ := by
  refine ⟨rfl, ?_, ?_, ?_⟩
  · exact dictGet_dictSet_same registry apiData.path apiData
  · exact dictGet_dictSet_other registry apiData.path other apiData
      (fun h => hother h.symm)
  · exact dictGet_dictSet_same reg path ⟨handler, metadata⟩

/-- Witness for the amended C5 theorem at concrete inputs. -/
theorem registerApi_last_wins_witness :
    (shallowRegisterApi [] apiDataOne).2 = true
    ∧ dictGet (shallowRegisterApi [] apiDataOne).1 "/p" = some apiDataOne
    ∧ dictGet (shallowRegisterApi [] apiDataOne).1 "/q" = dictGet [] "/q"
    ∧ (registerApi (D := Unit) [] "/p"
        (fun _ => { data := none, metadata := [], status := ResponseStatus.SUCCESS }) []
        |> dictGet) "/p"
        = some ⟨fun _ => { data := none, metadata := [], status := ResponseStatus.SUCCESS }, []⟩ :=
  registerApi_last_wins [] apiDataOne [] "/p" "/q" _ [] (by decide)

theorem mem_insertByPriority {α : Type} (x z : PEntry α) (l : List (PEntry α)) :
    z ∈ insertByPriority x l ↔ z = x ∨ z ∈ l := by
  induction l with
  | nil => simp [insertByPriority]
  | cons y ys ih =>
      unfold insertByPriority
      by_cases hle : x.priority ≤ y.priority
      · simp only [hle, if_true, List.mem_cons, ih]
        tauto
      · rw [if_neg hle]
        simp [List.mem_cons]

theorem stableOrd_insertByPriority {α : Type} (x : PEntry α)
    (l : List (PEntry α)) (hord : stableOrd l)
    (hid : ∀ e ∈ l, tiesInRegOrder e x) :
    stableOrd (insertByPriority x l) := by
  induction l with
  | nil => simp [insertByPriority, stableOrd]
  | cons y ys ih =>
      rw [stableOrd, List.pairwise_cons] at hord
      obtain ⟨hy, hys⟩ := hord
      unfold insertByPriority
      by_cases hle : x.priority ≤ y.priority
      · rw [if_pos hle]
        rw [stableOrd, List.pairwise_cons]
        constructor
        · intro z hz
          rcases (mem_insertByPriority x z ys).mp hz with hzx | hzys
          · subst hzx
            rcases lt_or_eq_of_le hle with hlt | heq
            · exact Or.inl hlt
            · exact Or.inr ⟨heq.symm, hid y (List.mem_cons_self y ys) heq.symm⟩
          · exact hy z hzys
        · exact ih hys (fun e he => hid e (List.mem_cons_of_mem y he))
      · rw [if_neg hle]
        push_neg at hle
        rw [stableOrd, List.pairwise_cons]
        constructor
        · intro z hz
          rcases List.mem_cons.mp hz with hzy | hzys
          · subst hzy
            exact Or.inl hle
          · rcases hy z hzys with hlt | ⟨heq, -⟩
            · exact Or.inl (hlt.trans hle)
            · exact Or.inl (heq ▸ hle)
        · rw [List.pairwise_cons]
          exact ⟨hy, hys⟩

theorem mem_foldl_insertByPriority {α : Type} (z : PEntry α) :
    ∀ (l acc : List (PEntry α)),
      z ∈ l.foldl (fun ac x => insertByPriority x ac) acc ↔ z ∈ acc ∨ z ∈ l := by
  intro l
  induction l with
  | nil => simp
  | cons x xs ih =>
      intro acc
      rw [List.foldl_cons, ih, mem_insertByPriority]
      simp only [List.mem_cons]
      tauto

theorem mem_pySortDesc {α : Type} (z : PEntry α) (l : List (PEntry α)) :
    z ∈ pySortDesc l ↔ z ∈ l := by
  rw [pySortDesc, mem_foldl_insertByPriority]
  simp

theorem stableOrd_foldl_insert {α : Type} :
    ∀ (l acc : List (PEntry α)), stableOrd acc →
      l.Pairwise tiesInRegOrder →
      (∀ a ∈ acc, ∀ b ∈ l, tiesInRegOrder a b) →
      stableOrd (l.foldl (fun ac x => insertByPriority x ac) acc) := by
  intro l
  induction l with
  | nil =>
      intro acc hacc _ _
      exact hacc
  | cons x xs ih =>
      intro acc hacc hpl hcross
      rw [List.pairwise_cons] at hpl
      obtain ⟨hx, hxs⟩ := hpl
      rw [List.foldl_cons]
      apply ih
      · exact stableOrd_insertByPriority x acc hacc
          (fun e he => hcross e he x (List.mem_cons_self x xs))
      · exact hxs
      · intro a ha b hb
        rcases (mem_insertByPriority x a acc).mp ha with hax | haacc
        · subst hax
          exact hx b hb
        · exact hcross a haacc b (List.mem_cons_of_mem x hb)

theorem stableOrd_pySortDesc {α : Type} (l : List (PEntry α))
    (h : l.Pairwise tiesInRegOrder) : stableOrd (pySortDesc l) :=
  stableOrd_foldl_insert l [] (by simp [stableOrd]) h (by simp)

theorem stableOrd.ties {α : Type} {l : List (PEntry α)} (h : stableOrd l) :
    l.Pairwise tiesInRegOrder := by
  refine h.imp ?_
  intro a b hab heq
  rcases hab with hlt | ⟨-, hid⟩
  · exact absurd (heq ▸ hlt) (lt_irrefl _)
  · exact hid

theorem tableOk_nil {κ α : Type} [DecidableEq κ] (n : Nat) :
    tableOk ([] : List (κ × List (PEntry α))) n := by
  intro k
  simp [dictGet, stableOrd]

theorem tableOk_addEntry {κ α : Type} [DecidableEq κ]
    (t : List (κ × List (PEntry α))) (n : Nat) (k : κ) (p : Int) (a : α)
    (h : tableOk t n) : tableOk (addEntry t k ⟨n, p, a⟩) (n + 1) := by
  intro k0
  by_cases hk : k0 = k
  · subst hk
    rw [addEntry, dictGet_dictSet_same]
    have hold := h k0
    constructor
    · apply stableOrd_pySortDesc
      rw [List.pairwise_append]
      refine ⟨hold.1.ties, by simp [tiesInRegOrder], ?_⟩
      intro x hx y hy
      rw [List.mem_singleton] at hy
      subst hy
      intro _
      exact hold.2 x hx
    · intro e he
      rw [Option.getD_some, mem_pySortDesc, List.mem_append] at he
      rcases he with he | he
      · exact Nat.lt_succ_of_lt (hold.2 e he)
      · rw [List.mem_singleton] at he
        subst he
        exact Nat.lt_succ_self n
  · rw [addEntry, dictGet_dictSet_other _ _ _ _ (fun hkk => hk hkk.symm)]
    exact ⟨(h k0).1, fun e he => Nat.lt_succ_of_lt ((h k0).2 e he)⟩

theorem tableOk_applyOps {κ α : Type} [DecidableEq κ] :
    ∀ (ops : List (RegOp κ α)) (t : List (κ × List (PEntry α))) (n : Nat),
      tableOk t n → tableOk (applyOps t n ops) (n + ops.length) := by
  intro ops
  induction ops with
  | nil =>
      intro t n h
      simpa [applyOps] using h
  | cons op rest ih =>
      intro t n h
      rw [applyOps]
      have hrec := ih (addEntry t op.key ⟨n, op.priority, op.payload⟩) (n + 1)
        (tableOk_addEntry t n op.key op.priority op.payload h)
      simp only [List.length_cons]
      have harith : n + (rest.length + 1) = n + 1 + rest.length := by omega
      rw [harith]
      exact hrec

theorem runInterceptors_spec {T V : Type}
    (l : List (PEntry (Message T → Option V))) (m : Message T) :
    runInterceptors l m
      = (l.findSome? (fun e => e.payload m),
         (takeUntilHit m l).map (fun e => e.id)) := by
  induction l with
  | nil => simp [runInterceptors, takeUntilHit]
  | cons e rest ih =>
      cases hpm : e.payload m with
      | some v => simp [runInterceptors, takeUntilHit, List.findSome?_cons, hpm]
      | none => simp [runInterceptors, takeUntilHit, List.findSome?_cons, hpm, ih]

theorem findSome?_append {α β : Type} (l₁ l₂ : List α) (f : α → Option β) :
    (l₁ ++ l₂).findSome? f
      = match l₁.findSome? f with
        | some v => some v
        | none => l₂.findSome? f := by
  induction l₁ with
  | nil => simp [List.findSome?_cons]
  | cons a as ih =>
      cases hfa : f a with
      | some v => simp [List.findSome?_cons, hfa]
      | none => simp [List.findSome?_cons, hfa, ih]

theorem takeUntilHit_append {T V : Type} (m : Message T)
    (l₁ l₂ : List (PEntry (Message T → Option V))) :
    takeUntilHit m (l₁ ++ l₂)
      = match l₁.findSome? (fun e => e.payload m) with
        | some _ => takeUntilHit m l₁
        | none => l₁ ++ takeUntilHit m l₂ := by
  induction l₁ with
  | nil => simp [List.findSome?_cons]
  | cons e rest ih =>
      cases hpm : e.payload m with
      | some v => simp [takeUntilHit, List.findSome?_cons, hpm]
      | none =>
          cases hrest : rest.findSome? (fun e => e.payload m) with
          | some v =>
              simp [takeUntilHit, List.findSome?_cons, hpm, hrest] at ih ⊢
              exact ih
          | none =>
              simp [takeUntilHit, List.findSome?_cons, hpm, hrest] at ih ⊢
              exact ih

theorem takeUntilHit_eq_self_of_none {T V : Type} (m : Message T) :
    ∀ l : List (PEntry (Message T → Option V)),
      l.findSome? (fun e => e.payload m) = none → takeUntilHit m l = l := by
  intro l
  induction l with
  | nil => intro _; rfl
  | cons e rest ih =>
      intro hnone
      rw [List.findSome?_cons] at hnone
      cases hpm : e.payload m with
      | some v => rw [hpm] at hnone; cases hnone
      | none =>
          rw [hpm] at hnone
          rw [takeUntilHit, hpm, ih hnone]

theorem publishInterceptPhase_spec {T V : Type}
    (table : List (String × List (PEntry (Message T → Option V))))
    (m : Message T) :
    publishInterceptPhase table m
      = ((matchingEntries table m.topic).findSome? (fun e => e.payload m),
         (takeUntilHit m (matchingEntries table m.topic)).map (fun e => e.id)) := by
  induction table with
  | nil => simp [publishInterceptPhase, matchingEntries, takeUntilHit]
  | cons hd rest ih =>
      obtain ⟨pat, l⟩ := hd
      by_cases hmatch : patternMatches pat m.topic
      · rw [publishInterceptPhase, if_pos hmatch, matchingEntries, if_pos hmatch]
        rw [runInterceptors_spec, findSome?_append, takeUntilHit_append]
        cases hl : l.findSome? (fun e => e.payload m) with
        | some v => simp
        | none => simp [ih, List.map_append, takeUntilHit_eq_self_of_none m l hl]
      · rw [publishInterceptPhase, if_neg hmatch, matchingEntries, if_neg hmatch]
        exact ih

theorem notifySubscribers_spec {T : Type}
    (table : List (String × List (PEntry (Message T → Unit))))
    (m : Message T) :
    notifySubscribers table m
      = (matchingEntries table m.topic).map (fun e => e.id) := by
  induction table with
  | nil => simp [notifySubscribers, matchingEntries]
  | cons hd rest ih =>
      obtain ⟨pat, l⟩ := hd
      by_cases hmatch : patternMatches pat m.topic
      · rw [notifySubscribers, if_pos hmatch, matchingEntries, if_pos hmatch]
        rw [List.map_append, ih]
      · rw [notifySubscribers, if_neg hmatch, matchingEntries, if_neg hmatch]
        exact ih

theorem matchingEntries_ids_sublist {α : Type}
    (table : List (String × List (PEntry α))) (topic : String) :
    ((matchingEntries table topic).map (fun e => e.id)).Sublist (allIds table) := by
  induction table with
  | nil => simp [matchingEntries, allIds]
  | cons hd rest ih =>
      obtain ⟨pat, l⟩ := hd
      by_cases hmatch : patternMatches pat topic
      · rw [matchingEntries, if_pos hmatch, allIds, List.map_append]
        exact List.Sublist.append_left ih _
      · rw [matchingEntries, if_neg hmatch, allIds]
        exact ih.trans (List.sublist_append_right _ _)

theorem mem_matchingEntries_ids {α : Type}
    (table : List (String × List (PEntry α))) (topic pat : String)
    (l : List (PEntry α)) (e : PEntry α) (hmem : (pat, l) ∈ table)
    (he : e ∈ l) (hmatch : patternMatches pat topic = true) :
    e.id ∈ (matchingEntries table topic).map (fun e => e.id) := by
  induction table with
  | nil => cases hmem
  | cons hd rest ih =>
      obtain ⟨pat0, l0⟩ := hd
      rcases List.mem_cons.mp hmem with hhd | htl
      · injection hhd with hp hl
        subst hp
        subst hl
        rw [matchingEntries, if_pos hmatch, List.map_append]
        exact List.mem_append_left _ (List.mem_map_of_mem _ he)
      · by_cases hm0 : patternMatches pat0 topic
        · rw [matchingEntries, if_pos hm0, List.map_append]
          exact List.mem_append_right _ (ih htl)
        · rw [matchingEntries, if_neg hm0]
          exact ih htl

/-- C1 counterexample: the claim says `publish` dispatches the matching
interceptors in descending priority, so the priority-10 interceptor (id 1,
pattern `*`, returning 2) would run first and `publish` would return 2.
The source instead walks the interceptor dict in pattern-insertion order, so
the priority-0 interceptor on `t` (id 0) runs first: `publish` returns 1 and
the priority-10 interceptor is never consulted. -/
theorem publish_priority_order_counterexample :
    publish hubC1 msgC1 = ⟨some 1, [0], []⟩
    ∧ patternMatches "*" msgC1.topic = true
    ∧ patternMatches "t" msgC1.topic = true
    ∧ (0 : Int) < 10
    ∧ (some 1 : Option Nat) ≠ some 2 := by
  refine ⟨by decide, by decide, by decide, by decide, by decide⟩

theorem insertByPriority_append_of_le {α : Type} (x : PEntry α)
    (l : List (PEntry α)) (h : ∀ a ∈ l, x.priority ≤ a.priority) :
    insertByPriority x l = l ++ [x] := by
  induction l with
  | nil => rfl
  | cons y ys ih =>
      rw [insertByPriority, if_pos (h y (List.mem_cons_self y ys)),
        ih (fun a ha => h a (List.mem_cons_of_mem y ha))]
      rfl

theorem foldl_insert_of_sorted {α : Type} :
    ∀ (l acc : List (PEntry α)),
      l.Pairwise (fun a b => b.priority ≤ a.priority) →
      (∀ b ∈ l, ∀ a ∈ acc, b.priority ≤ a.priority) →
      l.foldl (fun ac x => insertByPriority x ac) acc = acc ++ l := by
  intro l
  induction l with
  | nil =>
      intro acc _ _
      simp
  | cons y ys ih =>
      intro acc hp hcross
      rw [List.pairwise_cons] at hp
      obtain ⟨hy, hys⟩ := hp
      have hins : insertByPriority y acc = acc ++ [y] :=
        insertByPriority_append_of_le y acc
          (fun a ha => hcross y (List.mem_cons_self y ys) a ha)
      have hcross2 : ∀ b ∈ ys, ∀ a ∈ acc ++ [y], b.priority ≤ a.priority := by
        intro b hb a ha
        rcases List.mem_append.mp ha with ha | ha
        · exact hcross b (List.mem_cons_of_mem y hb) a ha
        · rw [List.mem_singleton] at ha
          subst ha
          exact hy b hb
      rw [List.foldl_cons, hins, ih (acc ++ [y]) hys hcross2]
      simp

theorem pySortDesc_of_stableOrd {α : Type} (l : List (PEntry α))
    (h : stableOrd l) : pySortDesc l = l := by
  have hp : l.Pairwise (fun a b => b.priority ≤ a.priority) := by
    refine h.imp ?_
    intro a b hab
    rcases hab with hlt | ⟨heq, -⟩
    · exact le_of_lt hlt
    · exact le_of_eq heq.symm
  have := foldl_insert_of_sorted l [] hp (by simp)
  simpa [pySortDesc] using this

theorem clientDeliverPublish_spec {T : Type}
    (hs : List (String × List (PEntry (Message T → Unit)))) (m : Message T)
    (h : ∀ pat l, (pat, l) ∈ hs → stableOrd l) :
    clientDeliverPublish hs m
      = (matchingEntries hs m.topic).map (fun e => e.id) := by
  induction hs with
  | nil => rfl
  | cons hd rest ih =>
      obtain ⟨pat, l⟩ := hd
      have hl : stableOrd l := h pat l (List.mem_cons_self _ _)
      have hrest : ∀ pat0 l0, (pat0, l0) ∈ rest → stableOrd l0 :=
        fun pat0 l0 hm => h pat0 l0 (List.mem_cons_of_mem _ hm)
      by_cases hmatch : patternMatches pat m.topic
      · rw [clientDeliverPublish, if_pos hmatch, matchingEntries, if_pos hmatch,
          List.map_append, pySortDesc_of_stableOrd l hl, ih hrest]
      · rw [clientDeliverPublish, if_neg hmatch, matchingEntries, if_neg hmatch]
        exact ih hrest

theorem shallowHasInterceptor_iff (itbl : List (String × List (PEntry String)))
    (topic : String) :
    shallowHasInterceptor itbl topic = true ↔
      ∃ pat l, (pat, l) ∈ itbl ∧ patternMatches pat topic = true ∧ l ≠ [] := by
  rw [shallowHasInterceptor, List.any_eq_true]
  constructor
  · rintro ⟨kv, hkv, hp⟩
    rw [Bool.and_eq_true] at hp
    refine ⟨kv.1, kv.2, by simpa using hkv, hp.1, ?_⟩
    have hne := hp.2
    intro hnil
    rw [hnil] at hne
    simp at hne
  · rintro ⟨pat, l, hmem, hmatch, hne⟩
    refine ⟨(pat, l), hmem, ?_⟩
    rw [Bool.and_eq_true]
    refine ⟨hmatch, ?_⟩
    simpa using hne

theorem shallowFanout_spec (stbl : List (String × List (PEntry String)))
    (topic : String) :
    shallowFanout stbl topic
      = (matchingEntries stbl topic).map (fun e => e.payload) := by
  induction stbl with
  | nil => rfl
  | cons hd rest ih =>
      obtain ⟨pat, subs⟩ := hd
      by_cases hmatch : patternMatches pat topic
      · rw [shallowFanout, if_pos hmatch, matchingEntries, if_pos hmatch,
          List.map_append, ih]
      · rw [shallowFanout, if_neg hmatch, matchingEntries, if_neg hmatch]
        exact ih

theorem shallowPublish_attributeError_iff
    (itbl stbl : List (String × List (PEntry String))) (topic : String) :
    shallowPublish itbl stbl topic = ShallowPublishOutcome.attributeError ↔
      ∃ pat l, (pat, l) ∈ itbl ∧ patternMatches pat topic = true ∧ l ≠ [] := by
  rw [← shallowHasInterceptor_iff itbl topic, shallowPublish]
  by_cases hc : shallowHasInterceptor itbl topic
  · rw [if_pos hc]
    simp [hc]
  · rw [if_neg hc]
    constructor
    · intro h
      exact absurd h (by simp)
    · intro h
      exact absurd h hc

theorem shallowPublish_delivered
    (itbl stbl : List (String × List (PEntry String))) (topic : String)
    (h : shallowHasInterceptor itbl topic = false) :
    shallowPublish itbl stbl topic
      = ShallowPublishOutcome.delivered
          ((matchingEntries stbl topic).map (fun e => e.payload)) := by
  rw [shallowPublish, if_neg (by simp [h]), shallowFanout_spec]

theorem tableOk_mono {κ α : Type} [DecidableEq κ]
    (t : List (κ × List (PEntry α))) (n m : Nat) (h : tableOk t n)
    (hnm : n ≤ m) : tableOk t m :=
  fun k => ⟨(h k).1, fun e he => lt_of_lt_of_le ((h k).2 e he) hnm⟩

theorem localOk_register {R A : Type}
    (t : List (Nat × List (String × List (PEntry (A → Option R)))))
    (n : Nat) (cls : Nat) (mname : String) (p : Int) (a : A → Option R)
    (h : ∀ c, tableOk ((dictGet t c).getD []) n) :
    ∀ c, tableOk
      ((dictGet (registerMethodInterceptorLocal t cls mname ⟨n, p, a⟩) c).getD [])
      (n + 1) := by
  intro c
  rw [registerMethodInterceptorLocal]
  by_cases hc : c = cls
  · subst hc
    rw [dictGet_dictSet_same, Option.getD_some]
    exact tableOk_addEntry _ n mname p a (h c)
  · rw [dictGet_dictSet_other _ _ _ _ (fun hh => hc hh.symm)]
    exact tableOk_mono _ n (n + 1) (h c) (Nat.le_succ n)

theorem localOk_applyLocalOps {R A : Type} :
    ∀ (ops : List (RegOp (Nat × String) (A → Option R)))
      (t : List (Nat × List (String × List (PEntry (A → Option R))))) (n : Nat),
      (∀ c, tableOk ((dictGet t c).getD []) n) →
      ∀ c, tableOk ((dictGet (applyLocalOps t n ops) c).getD [])
        (n + ops.length) := by
  intro ops
  induction ops with
  | nil =>
      intro t n h c
      simpa [applyLocalOps] using h c
  | cons op rest ih =>
      intro t n h c
      rw [applyLocalOps]
      have hrec := ih
        (registerMethodInterceptorLocal t op.key.1 op.key.2
          ⟨n, op.priority, op.payload⟩) (n + 1)
        (localOk_register t n op.key.1 op.key.2 op.priority op.payload h) c
      simp only [List.length_cons]
      have harith : n + (rest.length + 1) = n + 1 + rest.length := by omega
      rw [harith]
      exact hrec

/-- C1 amended, covering both cited publish paths.  HubConnector.publish:
interceptors are dispatched grouped by pattern in pattern-insertion order,
inside each pattern in stored (descending-priority) order, returning the
first non-null result; when some interceptor returns non-null no subscriber
is invoked; when none does, exactly the subscribers whose pattern matches
the topic are invoked — each exactly once when the subscription entries are
distinct — and `publish` returns None.  ShallowHub._process_hub_message
(TYPE_PUBLISH): whenever any matching pattern holds at least one
interceptor, the branch raises AttributeError on the undefined
`HubMessage.TYPE_INTERCEPT` before sending anything — the publish is
dropped, no subscriber is notified and no acknowledgment is produced,
whatever the interceptors would return; only when no interceptor matches is
the message forwarded, once per matching subscription entry (so a client
holding several matching subscriptions receives several copies), and the
receiving client then invokes, per received copy, every handler of each of
its locally matching patterns in stored descending-priority order. -/
theorem publish_dispatch_characterization {D T V : Type}
    (hub : HubConnector D T V) (m : Message T)
    (itbl stbl : List (String × List (PEntry String))) (topic : String)
    (hs : List (String × List (PEntry (Message T → Unit)))) :
    (publish hub m).result
        = (matchingEntries hub.local_interceptors m.topic).findSome?
            (fun e => e.payload m)
    ∧ (publish hub m).interceptTrace
        = (takeUntilHit m (matchingEntries hub.local_interceptors m.topic)).map
            (fun e => e.id)
    ∧ ((publish hub m).result.isSome = true →
        (publish hub m).subscriberTrace = [])
    ∧ ((publish hub m).result = none →
        (publish hub m).subscriberTrace
          = (matchingEntries hub.local_subscriptions m.topic).map (fun e => e.id))
    ∧ ((allIds hub.local_subscriptions).Nodup → (publish hub m).result = none →
        ∀ pat l e, (pat, l) ∈ hub.local_subscriptions → e ∈ l →
          patternMatches pat m.topic = true →
          (publish hub m).subscriberTrace.count e.id = 1)
    ∧ (shallowPublish itbl stbl topic = ShallowPublishOutcome.attributeError ↔
        ∃ pat l, (pat, l) ∈ itbl ∧ patternMatches pat topic = true ∧ l ≠ [])
    ∧ (shallowHasInterceptor itbl topic = false →
        shallowPublish itbl stbl topic
          = ShallowPublishOutcome.delivered
              ((matchingEntries stbl topic).map (fun e => e.payload)))
    ∧ ((∀ pat l, (pat, l) ∈ hs → stableOrd l) →
        clientDeliverPublish hs m
          = (matchingEntries hs m.topic).map (fun e => e.id)) := by
  have hphase := publishInterceptPhase_spec hub.local_interceptors m
  have hshallowF := shallowPublish_attributeError_iff itbl stbl topic
  have hshallowG := fun h => shallowPublish_delivered itbl stbl topic h
  have hclientH := fun h => clientDeliverPublish_spec hs m h
  cases hres : (matchingEntries hub.local_interceptors m.topic).findSome?
      (fun e => e.payload m) with
  | some v =>
      have hpub : publish hub m
          = ⟨some v,
             (takeUntilHit m (matchingEntries hub.local_interceptors m.topic)).map
               (fun e => e.id), []⟩ := by
        rw [publish, hphase, hres]
      rw [hpub]
      refine ⟨rfl, rfl, fun _ => rfl, ?_, ?_, hshallowF, hshallowG, hclientH⟩
      · intro hnone
        cases hnone
      · intro _ hnone
        cases hnone
  | none =>
      have hpub : publish hub m
          = ⟨none,
             (takeUntilHit m (matchingEntries hub.local_interceptors m.topic)).map
               (fun e => e.id),
             notifySubscribers hub.local_subscriptions m⟩ := by
        rw [publish, hphase, hres]
      rw [hpub]
      refine ⟨rfl, rfl, ?_, ?_, ?_, hshallowF, hshallowG, hclientH⟩
      · intro hsome
        cases hsome
      · intro _
        exact notifySubscribers_spec hub.local_subscriptions m
      · intro hnodup _ pat l e hmem he hmatch
        have htrace : notifySubscribers hub.local_subscriptions m
            = (matchingEntries hub.local_subscriptions m.topic).map (fun e => e.id) :=
          notifySubscribers_spec hub.local_subscriptions m
        simp only [htrace]
        have hnd : ((matchingEntries hub.local_subscriptions m.topic).map
            (fun e => e.id)).Nodup :=
          List.Nodup.sublist
            (matchingEntries_ids_sublist hub.local_subscriptions m.topic) hnodup
        exact List.count_eq_one_of_mem hnd
          (mem_matchingEntries_ids hub.local_subscriptions m.topic pat l e
            hmem he hmatch)

/-- Witness for the amended C1 theorem: the concrete `a*` subscriber is
invoked exactly once by a publish on topic `ab`, and a ShallowHub holding
one matching interceptor entry for topic `t` drops the publish with
AttributeError. -/
theorem publish_dispatch_characterization_witness :
    (publish hubW msgW).subscriberTrace.count 0 = 1
    ∧ shallowPublish [("t", [⟨0, 0, "client-a"⟩])] [("t", [⟨1, 0, "client-b"⟩])] "t"
        = ShallowPublishOutcome.attributeError :=
  ⟨(publish_dispatch_characterization hubW msgW [] [] "t"
        hubW.local_subscriptions).2.2.2.2.1 (by decide) rfl
      "a*" [⟨0, 0, subCbW⟩] ⟨0, 0, subCbW⟩ (List.Mem.head _) (List.Mem.head _)
      (by decide),
   (publish_dispatch_characterization hubW msgW
        [("t", [⟨0, 0, "client-a"⟩])] [("t", [⟨1, 0, "client-b"⟩])] "t"
        hubW.local_subscriptions).2.2.2.2.2.1.mpr
      ⟨"t", [⟨0, 0, "client-a"⟩], List.Mem.head _, by decide,
       List.cons_ne_nil _ _⟩⟩

/-- C7: after any sequence of subscribe / register_interceptor calls, every
pattern's interceptor list and subscription list is in strictly descending
priority order with ties in registration order (Python's per-registration
stable re-sort), and dispatch follows exactly that stored order: the
interceptor loop consults the stored list front to back up to the first
non-null result, and the subscriber fan-out invokes the stored list front to
back. -/
theorem registration_order_stable_and_dispatched {T V : Type}
    (iops : List (RegOp String (Message T → Option V)))
    (sops : List (RegOp String (Message T → Unit)))
    (pat : String) (m : Message T) :
    stableOrd ((dictGet (applyOps [] 0 iops) pat).getD [])
    ∧ stableOrd ((dictGet (applyOps [] 0 sops) pat).getD [])
    ∧ runInterceptors ((dictGet (applyOps [] 0 iops) pat).getD []) m
        = (((dictGet (applyOps [] 0 iops) pat).getD []).findSome?
             (fun e => e.payload m),
           (takeUntilHit m ((dictGet (applyOps [] 0 iops) pat).getD [])).map
             (fun e => e.id))
    ∧ notifySubscribers [(pat, (dictGet (applyOps [] 0 sops) pat).getD [])] m
        = (if patternMatches pat m.topic
           then ((dictGet (applyOps [] 0 sops) pat).getD []).map (fun e => e.id)
           else []) := by
  refine ⟨(tableOk_applyOps iops [] 0 (tableOk_nil 0) pat).1,
          (tableOk_applyOps sops [] 0 (tableOk_nil 0) pat).1,
          runInterceptors_spec _ m, ?_⟩
  by_cases hmatch : patternMatches pat m.topic
  · rw [notifySubscribers, if_pos hmatch, if_pos hmatch, notifySubscribers,
      List.append_nil]
  · rw [notifySubscribers, if_neg hmatch, if_neg hmatch, notifySubscribers]

theorem tryInterceptMethod_eq_findSome {R A : Type}
    (tbl : List ((Nat × String) × List (PEntry (A → Option R))))
    (mro : List Nat) (mname : String) (ctx : A) :
    tryInterceptMethod tbl mro mname ctx
      = (mroEntries tbl mro mname).findSome? (fun e => e.payload ctx) := by
  induction mro with
  | nil => simp [tryInterceptMethod, mroEntries]
  | cons c rest ih =>
      rw [tryInterceptMethod, mroEntries, findSome?_append]
      cases hget : dictGet tbl (c, mname) with
      | some entries =>
          rw [Option.getD_some]
          cases hfs : entries.findSome? (fun e => e.payload ctx) with
          | some r => simp [hfs]
          | none => simpa [hfs] using ih
      | none => simpa using ih

theorem mem_mroEntries {R A : Type}
    (tbl : List ((Nat × String) × List (PEntry (A → Option R))))
    (mro : List Nat) (mname : String) (c : Nat) (e : PEntry (A → Option R))
    (hc : c ∈ mro) (he : e ∈ (dictGet tbl (c, mname)).getD []) :
    e ∈ mroEntries tbl mro mname := by
  induction mro with
  | nil => cases hc
  | cons c0 rest ih =>
      rw [mroEntries]
      rcases List.mem_cons.mp hc with hc0 | hcr
      · subst hc0
        exact List.mem_append_left _ he
      · exact List.mem_append_right _ (ih hcr)

/-- C6 counterexample: the claim says an interceptor registered on type T
is consulted for every invocation on an instance of T or any subtype.  For
the cited `Node._try_intercept_method_locally` this is false: with one
interceptor registered on base class 0 for `search` (its handler answering
every call with a non-null result), a call on an instance of derived class
1 — whose type hierarchy [1, 0] contains 0 — consults nothing and returns
None, although the other cited dispatcher,
`EnhancedThreadHub.try_intercept_method`, returns the handler's result on
the same registration and call. -/
theorem node_local_ignores_supertype_interceptors :
    tryInterceptMethodLocally mTblLocal 1 "search" 3 = none
    ∧ mHandlerW 3 = some 7
    ∧ (0 : Nat) ∈ [1, 0]
    ∧ tryInterceptMethod (applyOps [] 0 mOpsW) [1, 0] "search" 3 = some 7 :=
  ⟨rfl, rfl, by decide, by decide⟩

/-- C6 amended: the two cited dispatchers differ.  In
EnhancedThreadHub.try_intercept_method, dispatch walks the instance's type
hierarchy most specific first, so an interceptor registered on T is in the
consulted sequence for T and every subtype, each class's interceptors in
descending priority with ties in registration order, and the first non-null
result is returned.  In Node._try_intercept_method_locally, only the
interceptors registered on the instance's exact class are consulted —
likewise in stored descending-priority order, first non-null result — and
an interceptor registered on a proper supertype is never consulted there
(the hub-connector fallback returns None). -/
theorem method_interceptor_dispatch_amended {R A : Type}
    (mops lops : List (RegOp (Nat × String) (A → Option R)))
    (mro : List Nat) (mname : String) (ctx : A)
    (tbl2 : List (Nat × List (String × List (PEntry (A → Option R)))))
    (cls : Nat) :
    tryInterceptMethod (applyOps [] 0 mops) mro mname ctx
      = (mroEntries (applyOps [] 0 mops) mro mname).findSome?
          (fun e => e.payload ctx)
    ∧ (∀ c e, c ∈ mro → e ∈ (dictGet (applyOps [] 0 mops) (c, mname)).getD [] →
        e ∈ mroEntries (applyOps [] 0 mops) mro mname)
    ∧ (∀ key, stableOrd ((dictGet (applyOps [] 0 mops) key).getD []))
    ∧ tryInterceptMethodLocally tbl2 cls mname ctx
        = (localEntriesAt tbl2 cls mname).findSome? (fun e => e.payload ctx)
    ∧ (∀ c mn, stableOrd (localEntriesAt (applyLocalOps [] 0 lops) c mn)) := by
  refine ⟨tryInterceptMethod_eq_findSome _ mro mname ctx,
          fun c e hc he => mem_mroEntries _ mro mname c e hc he,
          fun key => (tableOk_applyOps mops [] 0 (tableOk_nil 0) key).1,
          ?_, ?_⟩
  · unfold tryInterceptMethodLocally localEntriesAt
    cases hget : dictGet tbl2 cls with
    | some methods =>
        cases hget2 : dictGet methods mname with
        | some entries => simp [hget2]
        | none => simp [hget2]
    | none => simp [dictGet]
  · intro c mn
    have hbase : ∀ c0 : Nat,
        tableOk ((dictGet
          ([] : List (Nat × List (String × List (PEntry (A → Option R))))) c0).getD [])
          0 := by
      intro c0
      simp only [dictGet, Option.getD_none]
      exact tableOk_nil 0
    have hok := (localOk_applyLocalOps lops [] 0 hbase c) mn
    unfold localEntriesAt
    exact hok.1

/-- Witness for the amended C6 theorem: the concrete base-class interceptor
is part of the hierarchy-walk consultation for the derived class in the
EnhancedThreadHub dispatcher, and the node-local dispatcher provably reads
only the exact class's entry list. -/
theorem method_interceptor_dispatch_amended_witness :
    tryInterceptMethod (applyOps [] 0 mOpsW) [1, 0] "search" 3
      = (mroEntries (applyOps [] 0 mOpsW) [1, 0] "search").findSome?
          (fun e => e.payload 3)
    ∧ (⟨0, 0, mHandlerW⟩ : PEntry (Nat → Option Nat))
        ∈ mroEntries (applyOps [] 0 mOpsW) [1, 0] "search"
    ∧ tryInterceptMethodLocally mTblLocal 1 "search" 3
        = (localEntriesAt mTblLocal 1 "search").findSome? (fun e => e.payload 3) :=
  ⟨(method_interceptor_dispatch_amended mOpsW mOpsW [1, 0] "search" 3
      mTblLocal 1).1,
   (method_interceptor_dispatch_amended mOpsW mOpsW [1, 0] "search" 3
      mTblLocal 1).2.1 0 ⟨0, 0, mHandlerW⟩ (by decide) (List.Mem.head _),
   (method_interceptor_dispatch_amended mOpsW mOpsW [1, 0] "search" 3
      mTblLocal 1).2.2.2.1⟩

/-- C4: both call_api implementations return exactly one ApiResponse for
every transport outcome, and every failure (timeout, transport error,
handler exception message carried back as the exception string) surfaces as
a returned ERROR response carrying the message under the `error` metadata
key — never as an escaping exception, never as zero or two responses. -/
theorem call_api_exactly_one_response {D : Type}
    (outcome : Except String (RespData D))
    (noutcome : Except String (Nat × NetRespData D)) :
    (∃ r, shallowCallApi outcome = r ∧ ∀ s, shallowCallApi outcome = s → s = r)
    ∧ (∃ r, networkCallApi noutcome = r ∧ ∀ s, networkCallApi noutcome = s → s = r)
    ∧ (∀ e, outcome = Except.error e →
        shallowCallApi outcome
          = { data := none, metadata := [("error", e)],
              status := ResponseStatus.ERROR })
    ∧ (∀ e, noutcome = Except.error e →
        networkCallApi noutcome
          = { data := none, metadata := [("error", e)],
              status := ResponseStatus.ERROR }) := by
  refine ⟨⟨shallowCallApi outcome, rfl, fun s hs => hs.symm⟩,
          ⟨networkCallApi noutcome, rfl, fun s hs => hs.symm⟩, ?_, ?_⟩
  · intro e he
    rw [he]
    rfl
  · intro e he
    rw [he]
    rfl

/-- Witness for C4: a concrete timed-out call is answered by exactly one
ERROR response carrying the timeout message. -/
theorem call_api_exactly_one_response_witness :
    shallowCallApi (D := Unit)
        (Except.error "Request timed out after 30 seconds")
      = { data := none,
          metadata := [("error", "Request timed out after 30 seconds")],
          status := ResponseStatus.ERROR } :=
  (call_api_exactly_one_response
      (Except.error "Request timed out after 30 seconds")
      (Except.error "Request timed out after 30 seconds")).2.2.1
    "Request timed out after 30 seconds" rfl

/-- C8 counterexample: the frame written for message type 1 with the
two-byte payload `{}` (bytes 123, 125) is three bytes long — tag then
payload — not the seven-byte tag + 32-bit length + payload frame the claim
describes; no length field is written at all. -/
theorem sendFrame_no_length_field :
    sendFrameBytes 1 [123, 125] = [1, 123, 125]
    ∧ sendFrameBytes 1 [123, 125] ≠ claimedFrame 1 [123, 125]
    ∧ (sendFrameBytes 1 [123, 125]).length = 3
    ∧ (claimedFrame 1 [123, 125]).length = 7 := by
  refine ⟨rfl, by decide, rfl, rfl⟩

/-- C8 amended: every frame written consists of exactly a one-byte type tag
followed immediately by the payload bytes — there is no length field — and
reading a frame from a stream holding one frame recovers the tag and the
payload exactly as written. -/
theorem sendFrame_roundtrip (tag : Nat) (payload : List Nat) :
    sendFrameBytes tag payload = tag :: payload
    ∧ (sendFrameBytes tag payload).length = 1 + payload.length
    ∧ recvFrame (sendFrameBytes tag payload) = some (tag, payload) :=
  ⟨rfl, by simp [sendFrameBytes, Nat.add_comm], rfl⟩

/-- C10: a Message constructed with timestamp 0 — in particular with the
timestamp omitted, since 0 is the dataclass default — gets the current
wall-clock milliseconds instead; any nonzero timestamp is kept unchanged;
hence, the wall clock being nonzero, no constructed Message carries
timestamp 0 and a caller cannot force a timestamp of exactly 0. -/
theorem message_timestamp_never_zero {T : Type} (now ts : Int)
    (topic : String) (data : T) (metadata : List (String × String))
    (sender_id : String) (hnow : now ≠ 0) :
    (ts = 0 → (mkMessage now topic data metadata sender_id ts).timestamp = now)
    ∧ (ts ≠ 0 → (mkMessage now topic data metadata sender_id ts).timestamp = ts)
    ∧ (mkMessage now topic data metadata sender_id ts).timestamp ≠ 0 := by
  refine ⟨?_, ?_, ?_⟩
  · intro h
    simp [mkMessage, postInitTimestamp, h]
  · intro h
    simp [mkMessage, postInitTimestamp, h]
  · by_cases h : ts = 0
    · simp [mkMessage, postInitTimestamp, h, hnow]
    · simp [mkMessage, postInitTimestamp, h]

/-- Witness for C10 at a concrete wall-clock value and the default
timestamp 0. -/
theorem message_timestamp_never_zero_witness :
    (mkMessage 1760227200000 "t" () [] "s" 0).timestamp = 1760227200000
    ∧ (mkMessage 1760227200000 "t" () [] "s" 0).timestamp ≠ 0 :=
  ⟨(message_timestamp_never_zero 1760227200000 0 "t" () [] "s"
      (by decide)).1 rfl,
   (message_timestamp_never_zero 1760227200000 0 "t" () [] "s"
      (by decide)).2.2⟩

end InfoNet
